import Mathlib

/-!
Shallow embedding of the fur-background simulation from
src/apps/tender-circuits/src/scripts/three-fur-background.ts.

Numbers are modelled as exact rationals.  The transcendental library
primitives the script calls (the simplex noise instance created by
createNoise2D, Math.exp, Math.sqrt, Math.cos, Math.sin, Math.atan2 and
Math.pow with a fractional exponent) are threaded through every definition
as an explicit record of opaque rational functions, mirroring the fact
that the script treats them as black-box math routines.  Facts a theorem
needs about them (such as monotonicity of sqrt, or that exp maps
nonpositive arguments into the unit interval) appear as explicit
hypotheses and are discharged at concrete instances in the witnesses.
-/

set_option autoImplicit false

namespace Fur

/-- Black-box math routines used by the script: the unseeded simplex noise
instance and the Math.* transcendental functions. -/
structure Prims where
  noise2D : ℚ → ℚ → ℚ
  exp : ℚ → ℚ
  sqrt : ℚ → ℚ
  cos : ℚ → ℚ
  sin : ℚ → ℚ
  atan2 : ℚ → ℚ → ℚ
  powf : ℚ → ℚ → ℚ

/-- The named tunables of the script (its readonly configuration
constants), gathered into a configuration record. -/
structure Config where
  textureSize : ℕ
  temporalBlendRate : ℚ
  baseFlowAngle : ℚ
  flowNoiseScale : ℚ
  flowNoiseMultiplier : ℚ
  angleSpringConstant : ℚ
  maxAngleDeviation : ℚ
  resistanceCurve : ℚ
  glassInfluenceRadius : ℚ
  gaussianSigmaMultiplier : ℚ
  velocityMagnitudeThreshold : ℚ
  velocityScalingFactor : ℚ
  velocityBlendStrength : ℚ
  turbulenceOctaves : ℕ
  turbulenceFrequencyMultiplier : ℚ
  turbulenceAmplitudeMultiplier : ℚ
  turbulenceNormalizationDivisor : ℚ
  hairScale : ℚ
  hairCount : ℕ
  hairThicknessMin : ℚ
  hairThicknessMax : ℚ
  hairLengthMin : ℚ
  hairLengthMax : ℚ
  hairDensity : ℚ
  hairDensityPower : ℚ
  opacityBaseMin : ℚ
  opacityBaseRange : ℚ
  opacityTipMin : ℚ
  opacityTipRange : ℚ
  hairPlacementMargin : ℚ
  randomSeed : ℕ
  randomMultiplier : ℕ
  randomIncrement : ℕ
  randomModulus : ℕ
  contentMaxWidth : ℚ
  cameraFrustumSize : ℚ
  animationVelocityThreshold : ℚ
  convergenceSmoothing : ℚ

/-- One step of the linear congruential generator created by
createSeededRandom: the seed is advanced and the fresh seed divided by the
modulus is returned. -/
def nextRandom (cfg : Config) (s : ℕ) : ℕ × ℚ :=
  let s2 := (s * cfg.randomMultiplier + cfg.randomIncrement) % cfg.randomModulus
  (s2, (s2 : ℚ) / (cfg.randomModulus : ℚ))

/-- Octave loop of getTurbulence: accumulates absolute noise values with
geometrically evolving frequency and amplitude. -/
def turbulenceLoop (prims : Prims) (cfg : Config) (x y scale : ℚ) :
    ℕ → ℚ → ℚ → ℚ
  | 0, _, _ => 0
  | n + 1, freq, amp =>
      |prims.noise2D (x * freq * scale) (y * freq * scale)| * amp +
        turbulenceLoop prims cfg x y scale n
          (freq * cfg.turbulenceFrequencyMultiplier)
          (amp * cfg.turbulenceAmplitudeMultiplier)

/-- getTurbulence from createInstancedFurMesh: multi-octave absolute
simplex noise, normalized by the configured divisor. -/
def getTurbulence (prims : Prims) (cfg : Config) (x y scale : ℚ) : ℚ :=
  turbulenceLoop prims cfg x y scale cfg.turbulenceOctaves 1 1 /
    cfg.turbulenceNormalizationDivisor

/-- Attributes of one generated hair instance. -/
structure Hair where
  x : ℚ
  y : ℚ
  length : ℚ
  thickness : ℚ
  baseOpacity : ℚ
  tipOpacity : ℚ
  seed : ℚ
deriving DecidableEq

/-- Region buckets for generated hairs, relative to the content band. -/
inductive Region where
  | leftStatic
  | dynamic
  | rightStatic
deriving DecidableEq

/-- Candidate loop of createInstancedFurMesh.  Each iteration draws a
position, evaluates turbulence density and either rejects the candidate
(consuming three random draws) or accepts it and draws length, thickness,
the two opacities and a per-hair shader seed (five more draws), bucketing
the hair by its x coordinate against the content band. -/
def genHairsAux (prims : Prims) (cfg : Config) (bmin bmax : ℚ) :
    ℕ → ℕ → List (Hair × Region)
  | 0, _ => []
  | n + 1, s =>
      let p1 := nextRandom cfg s
      let p2 := nextRandom cfg p1.1
      let size : ℚ := (cfg.textureSize : ℚ)
      let margin := cfg.hairPlacementMargin
      let hx := margin + p1.2 * (size - margin * 2)
      let hy := margin + p2.2 * (size - margin * 2)
      let turb := getTurbulence prims cfg hx hy cfg.hairScale
      let localDensity := prims.powf turb cfg.hairDensityPower
      let p3 := nextRandom cfg p2.1
      if localDensity * cfg.hairDensity < p3.2 then
        genHairsAux prims cfg bmin bmax n p3.1
      else
        let p4 := nextRandom cfg p3.1
        let p5 := nextRandom cfg p4.1
        let p6 := nextRandom cfg p5.1
        let p7 := nextRandom cfg p6.1
        let p8 := nextRandom cfg p7.1
        let h : Hair :=
          { x := hx
            y := hy
            length := cfg.hairLengthMin + p4.2 * (cfg.hairLengthMax - cfg.hairLengthMin)
            thickness := cfg.hairThicknessMin + p5.2 * (cfg.hairThicknessMax - cfg.hairThicknessMin)
            baseOpacity := cfg.opacityBaseMin + p6.2 * cfg.opacityBaseRange
            tipOpacity := cfg.opacityTipMin + p7.2 * cfg.opacityTipRange
            seed := p8.2 * 1000 }
        let reg : Region :=
          if hx < bmin then Region.leftStatic
          else if bmax < hx then Region.rightStatic
          else Region.dynamic
        (h, reg) :: genHairsAux prims cfg bmin bmax n p8.1

/-- createInstancedFurMesh, restricted to the instance data it produces.
The method begins by resetting the seeded generator to the configured
seed, so the incoming generator state rngState is discarded. -/
def createInstancedFur (prims : Prims) (cfg : Config) (bmin bmax : ℚ)
    (rngState : ℕ) : List (Hair × Region) :=
  let _ := rngState
  genHairsAux prims cfg bmin bmax cfg.hairCount cfg.randomSeed

/-- Instances of one region bucket. -/
def regionHairs (l : List (Hair × Region)) (r : Region) : List Hair :=
  (l.filter fun p => p.2 = r).map Prod.fst

/-- createRegionMesh: a region with zero instances yields no mesh (null);
otherwise the mesh carries the region's instance data. -/
def createRegionMesh (data : List Hair) : Option (List Hair) :=
  if data.length = 0 then none else some data

/-- Scalar field buffer, addressed by cell coordinates (x, y). -/
abbrev Buf := ℕ → ℕ → ℚ

/-- Kinematic state of one tracked card in world space, as consumed by
updateBuffers. -/
structure Card where
  posX : ℚ
  posY : ℚ
  sizeX : ℚ
  sizeY : ℚ
  velMemX : ℚ
  velMemY : ℚ
  compression : ℚ
deriving DecidableEq

/-- Card data converted to texture space by updateBuffers: position via
worldToTexture, size scaled into texels, halved into half extents. -/
structure TexCard where
  px : ℚ
  py : ℚ
  hw : ℚ
  hh : ℚ
  vmx : ℚ
  vmy : ℚ
  compression : ℚ

/-- The world-to-texture conversion applied to a card at the top of the
per-card loop of updateBuffers. -/
def toTexCard (cfg : Config) (aspect : ℚ) (c : Card) : TexCard :=
  let size : ℚ := (cfg.textureSize : ℚ)
  let f := cfg.cameraFrustumSize
  { px := ((c.posX / (f * aspect / 2) + 1) / 2) * size
    py := ((-c.posY / (f / 2) + 1) / 2) * size
    hw := (c.sizeX / (f * aspect)) * size / 2
    hh := (c.sizeY / f) * size / 2
    vmx := c.velMemX
    vmy := c.velMemY
    compression := c.compression }

/-- Left edge of a card's update box, clamped to the texture. -/
def updMinX (cfg : Config) (tc : TexCard) : ℤ :=
  max 0 ⌊tc.px - tc.hw - cfg.glassInfluenceRadius⌋

/-- Right edge of a card's update box, clamped to the texture. -/
def updMaxX (cfg : Config) (tc : TexCard) : ℤ :=
  min ((cfg.textureSize : ℤ) - 1) ⌈tc.px + tc.hw + cfg.glassInfluenceRadius⌉

/-- Top edge of a card's update box, clamped to the texture. -/
def updMinY (cfg : Config) (tc : TexCard) : ℤ :=
  max 0 ⌊tc.py - tc.hh - cfg.glassInfluenceRadius⌋

/-- Bottom edge of a card's update box, clamped to the texture. -/
def updMaxY (cfg : Config) (tc : TexCard) : ℤ :=
  min ((cfg.textureSize : ℤ) - 1) ⌈tc.py + tc.hh + cfg.glassInfluenceRadius⌉

/-- Membership of a cell in a card's per-tick update region: the card's
clamped box with the x range further clamped to the content band columns
(floor of the band minimum, ceiling of the band maximum). -/
def inCardRegion (cfg : Config) (bmin bmax : ℚ) (tc : TexCard) (x y : ℕ) : Prop :=
  max (updMinX cfg tc) ⌊bmin⌋ ≤ (x : ℤ) ∧ (x : ℤ) ≤ min (updMaxX cfg tc) ⌈bmax⌉ ∧
    updMinY cfg tc ≤ (y : ℤ) ∧ (y : ℤ) ≤ updMaxY cfg tc

instance (cfg : Config) (bmin bmax : ℚ) (tc : TexCard) (x y : ℕ) :
    Decidable (inCardRegion cfg bmin bmax tc x y) := by
  unfold inCardRegion; infer_instance

/-- Euclidean distance from a cell to the nearest point of the card's
rectangle (zero inside), exactly as computed in updateBuffers. -/
def edgeDist (prims : Prims) (tc : TexCard) (x y : ℕ) : ℚ :=
  let dx := (x : ℚ) - tc.px
  let dy := (y : ℚ) - tc.py
  let ex := max 0 (|dx| - tc.hw)
  let ey := max 0 (|dy| - tc.hh)
  prims.sqrt (ex * ex + ey * ey)

/-- Target influence of a card at a cell: full compression on the card,
Gaussian falloff within the influence radius, zero beyond it. -/
def targetInfluence (prims : Prims) (cfg : Config) (tc : TexCard) (x y : ℕ) : ℚ :=
  let d := edgeDist prims tc x y
  if d = 0 then tc.compression
  else if d < cfg.glassInfluenceRadius then
    let sigma := cfg.glassInfluenceRadius * cfg.gaussianSigmaMultiplier
    tc.compression * prims.exp (-(d * d) / (2 * sigma * sigma))
  else 0

/-- The influence write performed for one card: within its region, a cell
with positive target influence stores the maximum of the stored and the
target value. -/
def cardInfluenceWrite (prims : Prims) (cfg : Config) (bmin bmax : ℚ)
    (tc : TexCard) (inf : Buf) : Buf :=
  fun x y =>
    if inCardRegion cfg bmin bmax tc x y ∧ 0 < targetInfluence prims cfg tc x y then
      max (inf x y) (targetInfluence prims cfg tc x y)
    else inf x y

/-- Rest angle of a cell: base flow angle plus scaled flow noise (the same
formula is used to initialize the angle buffer and inside updateBuffers). -/
def restAngle (prims : Prims) (cfg : Config) (x y : ℕ) : ℚ :=
  cfg.baseFlowAngle +
    prims.noise2D ((x : ℚ) * cfg.flowNoiseScale) ((y : ℚ) * cfg.flowNoiseScale) *
      cfg.flowNoiseMultiplier

/-- Clamp of a deviation into the symmetric interval of radius m. -/
def clampDev (m v : ℚ) : ℚ := max (-m) (min m v)

/-- The directional-strain angle update performed for one card at one cell
of its region: resistance-weighted blend toward the target angle, spring
restoring force, and a final clamp of the deviation. -/
def angleStepCell (prims : Prims) (cfg : Config) (tc : TexCard)
    (stored : ℚ) (x y : ℕ) : ℚ :=
  let baseAngle := restAngle prims cfg x y
  let deviation := stored - baseAngle
  let normalizedDeviation := |deviation| / cfg.maxAngleDeviation
  let resistanceFactor := prims.powf (1 - min normalizedDeviation 1) cfg.resistanceCurve
  let velMag := prims.sqrt (tc.vmx * tc.vmx + tc.vmy * tc.vmy)
  let d := edgeDist prims tc x y
  let targetAngle :=
    if cfg.velocityMagnitudeThreshold < velMag ∧ d < cfg.glassInfluenceRadius then
      let velocityAngle := prims.atan2 (-tc.vmy) tc.vmx
      let velocityInfluence := min (velMag * cfg.velocityScalingFactor) 1
      let influenceStrength :=
        if d = 0 then tc.compression
        else
          let sigma := cfg.glassInfluenceRadius * cfg.gaussianSigmaMultiplier
          tc.compression * prims.exp (-(d * d) / (2 * sigma * sigma))
      let blendStrength := influenceStrength * velocityInfluence * cfg.velocityBlendStrength
      baseAngle * (1 - blendStrength) + velocityAngle * blendStrength
    else baseAngle
  let restoringForce := -deviation * cfg.angleSpringConstant
  let effectiveBlendRate := cfg.temporalBlendRate * resistanceFactor
  let newAngle := stored + (targetAngle - stored) * effectiveBlendRate + restoringForce
  baseAngle + clampDev cfg.maxAngleDeviation (newAngle - baseAngle)

/-- The angle write performed for one card: every cell of its region gets
the directional-strain update. -/
def cardAngleWrite (prims : Prims) (cfg : Config) (bmin bmax : ℚ)
    (tc : TexCard) (a : Buf) : Buf :=
  fun x y =>
    if inCardRegion cfg bmin bmax tc x y then
      angleStepCell prims cfg tc (a x y) x y
    else a x y

/-- The angle buffer after the per-card loop: cards with nonpositive
compression are skipped, the others apply their writes in order. -/
def angleAfterCards (prims : Prims) (cfg : Config) (aspect bmin bmax : ℚ)
    (cards : List Card) (a : Buf) : Buf :=
  cards.foldl
    (fun b c =>
      if c.compression ≤ 0 then b
      else cardAngleWrite prims cfg bmin bmax (toTexCard cfg aspect c) b)
    a

/-- The influence buffer after the per-card loop. -/
def influenceAfterCards (prims : Prims) (cfg : Config) (aspect bmin bmax : ℚ)
    (cards : List Card) (inf : Buf) : Buf :=
  cards.foldl
    (fun b c =>
      if c.compression ≤ 0 then b
      else cardInfluenceWrite prims cfg bmin bmax (toTexCard cfg aspect c) b)
    inf

/-- Membership of a cell in the influencedPixels set of a tick: some
processed card wrote a positive target influence to it. -/
def influencedAt (prims : Prims) (cfg : Config) (aspect bmin bmax : ℚ)
    (cards : List Card) (x y : ℕ) : Prop :=
  ∃ c ∈ cards, 0 < c.compression ∧
    inCardRegion cfg bmin bmax (toTexCard cfg aspect c) x y ∧
    0 < targetInfluence prims cfg (toTexCard cfg aspect c) x y

instance (prims : Prims) (cfg : Config) (aspect bmin bmax : ℚ)
    (cards : List Card) (x y : ℕ) :
    Decidable (influencedAt prims cfg aspect bmin bmax cards x y) := by
  unfold influencedAt; infer_instance

/-- Dirty bounding box of one tick. -/
structure Bounds where
  minX : ℤ
  maxX : ℤ
  minY : ℤ
  maxY : ℤ
deriving DecidableEq

/-- Accumulated dirty bounds of a tick: union of the texture-clamped
update boxes of the processed cards, starting from the degenerate box. -/
def dirtyBounds (cfg : Config) (aspect : ℚ) (cards : List Card) : Bounds :=
  cards.foldl
    (fun b c =>
      if c.compression ≤ 0 then b
      else
        let tc := toTexCard cfg aspect c
        { minX := min b.minX (updMinX cfg tc)
          maxX := max b.maxX (updMaxX cfg tc)
          minY := min b.minY (updMinY cfg tc)
          maxY := max b.maxY (updMaxY cfg tc) })
    { minX := (cfg.textureSize : ℤ), maxX := 0
      minY := (cfg.textureSize : ℤ), maxY := 0 }

/-- Membership of a cell in the decay region of a tick: the union of the
current and previous dirty bounds, expanded by the (ceiled) influence
radius, with the x range clamped to the content band columns and the y
range to the texture. -/
def inDecayRegion (cfg : Config) (aspect bmin bmax : ℚ) (cards : List Card)
    (prev : Bounds) (x y : ℕ) : Prop :=
  let db := dirtyBounds cfg aspect cards
  let dr : ℤ := ⌈cfg.glassInfluenceRadius⌉
  max ⌊bmin⌋ (min db.minX prev.minX - dr) ≤ (x : ℤ) ∧
    (x : ℤ) ≤ min ⌈bmax⌉ (max db.maxX prev.maxX + dr) ∧
    max 0 (min db.minY prev.minY - dr) ≤ (y : ℤ) ∧
    (y : ℤ) ≤ min ((cfg.textureSize : ℤ) - 1) (max db.maxY prev.maxY + dr)

instance (cfg : Config) (aspect bmin bmax : ℚ) (cards : List Card)
    (prev : Bounds) (x y : ℕ) :
    Decidable (inDecayRegion cfg aspect bmin bmax cards prev x y) := by
  unfold inDecayRegion; infer_instance

/-- The decay applied to an uninfluenced cell of the decay region:
geometric decay above the snap epsilon, a snap to exactly zero below it. -/
def decayCell (cfg : Config) (v : ℚ) : ℚ :=
  if 1 / 1000 < v then v * (1 - cfg.temporalBlendRate)
  else if 0 < v then 0
  else v

/-- The influence buffer after the decay pass. -/
def influenceAfterDecay (prims : Prims) (cfg : Config) (aspect bmin bmax : ℚ)
    (cards : List Card) (prev : Bounds) (inf : Buf) : Buf :=
  fun x y =>
    if inDecayRegion cfg aspect bmin bmax cards prev x y ∧
        ¬ influencedAt prims cfg aspect bmin bmax cards x y then
      decayCell cfg (inf x y)
    else inf x y

/-- The convergence blend at one interior cell: divergence of the unit
flow vectors of the four axis neighbours, negated, smoothed and blended
into the stored value. -/
def convTargetBlend (prims : Prims) (cfg : Config) (a conv : Buf) (x y : ℕ) : ℚ :=
  let angleLeft := a (x - 1) y
  let angleRight := a (x + 1) y
  let angleUp := a x (y - 1)
  let angleDown := a x (y + 1)
  let divX := (prims.cos angleRight - prims.cos angleLeft) / 2
  let divY := (prims.sin angleDown - prims.sin angleUp) / 2
  let divergence := divX + divY
  let targetConvergence := -divergence / cfg.convergenceSmoothing
  conv x y + (targetConvergence - conv x y) * cfg.temporalBlendRate

/-- The convergence buffer after the interior update: interior rows, with
the x range clamped to the content band columns. -/
def convInterior (prims : Prims) (cfg : Config) (bmin bmax : ℚ)
    (a conv : Buf) : Buf :=
  fun x y =>
    if 1 ≤ (y : ℤ) ∧ (y : ℤ) ≤ (cfg.textureSize : ℤ) - 2 ∧
        max 1 ⌊bmin⌋ ≤ (x : ℤ) ∧ (x : ℤ) < min ((cfg.textureSize : ℤ) - 1) ⌈bmax⌉ then
      convTargetBlend prims cfg a conv x y
    else conv x y

/-- Edge handling, first pass: the top row is copied from row 1 and the
bottom row from row n − 2. -/
def fixTopBottom (n : ℕ) (b : Buf) : Buf :=
  fun x y =>
    if y = 0 then b x 1
    else if y = n - 1 then b x (n - 2)
    else b x y

/-- Edge handling, second pass: the left column is copied from column 1
and the right column from column n − 2, reading the buffer already fixed
by the first pass. -/
def fixLeftRight (n : ℕ) (b : Buf) : Buf :=
  fun x y =>
    if x = 0 then b 1 y
    else if x = n - 1 then b (n - 2) y
    else b x y

/-- The mutable per-tick state of the three field buffers together with
the previous tick's dirty bounds. -/
structure FieldState where
  angle : Buf
  influence : Buf
  convergence : Buf
  prevBounds : Bounds

/-- updateBuffers: the per-card angle and influence writes, the decay pass
over the dual dirty bounds, the convergence interior update and the edge
copies, with the previous bounds replaced by this tick's dirty bounds. -/
def updateBuffers (prims : Prims) (cfg : Config) (aspect bmin bmax : ℚ)
    (cards : List Card) (st : FieldState) : FieldState :=
  let a2 := angleAfterCards prims cfg aspect bmin bmax cards st.angle
  let inf1 := influenceAfterCards prims cfg aspect bmin bmax cards st.influence
  let inf2 := influenceAfterDecay prims cfg aspect bmin bmax cards st.prevBounds inf1
  let cv1 := convInterior prims cfg bmin bmax a2 st.convergence
  let cv2 := fixLeftRight cfg.textureSize (fixTopBottom cfg.textureSize cv1)
  { angle := a2
    influence := inf2
    convergence := cv2
    prevBounds := dirtyBounds cfg aspect cards }

/-- initializeBuffers: the angle buffer starts at the rest angles, the
influence and convergence buffers at zero, and the previous dirty bounds
at the zero box. -/
def initBuffers (prims : Prims) (cfg : Config) : FieldState :=
  { angle := fun x y => restAngle prims cfg x y
    influence := fun _ _ => 0
    convergence := fun _ _ => 0
    prevBounds := { minX := 0, maxX := 0, minY := 0, maxY := 0 } }

/-- Field states reachable from initialization by per-tick updates whose
cards all carry a compression in the unit interval (the script constructs
every card with compression 1). -/
inductive Reaches (prims : Prims) (cfg : Config) : FieldState → Prop where
  | init : Reaches prims cfg (initBuffers prims cfg)
  | step (aspect bmin bmax : ℚ) (cards : List Card) (st : FieldState)
      (hc : ∀ c ∈ cards, 0 ≤ c.compression ∧ c.compression ≤ 1) :
      Reaches prims cfg st →
      Reaches prims cfg (updateBuffers prims cfg aspect bmin bmax cards st)

/-- Field states reachable from initialization by per-tick updates all
using one fixed content band. -/
inductive ReachesBand (prims : Prims) (cfg : Config) (bmin bmax : ℚ) :
    FieldState → Prop where
  | init : ReachesBand prims cfg bmin bmax (initBuffers prims cfg)
  | step (aspect : ℚ) (cards : List Card) (st : FieldState)
      (hc : ∀ c ∈ cards, 0 ≤ c.compression ∧ c.compression ≤ 1) :
      ReachesBand prims cfg bmin bmax st →
      ReachesBand prims cfg bmin bmax (updateBuffers prims cfg aspect bmin bmax cards st)

/-- calculateContentBandBoundaries: content width capped at the maximum,
padded by twice the influence radius on each side, converted to texture
space around the center column and clamped to the texture. -/
def calculateContentBand (cfg : Config) (windowWidth : ℚ) : ℚ × ℚ :=
  let size : ℚ := (cfg.textureSize : ℚ)
  let contentWidthPx := min cfg.contentMaxWidth windowWidth
  let bufferPx := cfg.glassInfluenceRadius * 2
  let dynamicWidthPx := contentWidthPx + bufferPx * 2
  let centerX := size / 2
  let dynamicHalfWidthTex := dynamicWidthPx / windowWidth * size / 2
  (max 0 (centerX - dynamicHalfWidthTex), min size (centerX + dynamicHalfWidthTex))

/-- The application state touched by handleResize: the renderer aspect,
the stored content band, the field buffers and the generated instances. -/
structure AppState where
  aspect : ℚ
  bandMinX : ℚ
  bandMaxX : ℚ
  fields : FieldState
  hairs : List (Hair × Region)

/-- handleResize: the aspect and band are always updated; when either
band boundary moved by more than a tenth of the texture size the fur
instances are regenerated (with the seeded generator reset), while the
field buffers are carried over unchanged in both branches. -/
def handleResize (prims : Prims) (cfg : Config) (w h : ℚ) (st : AppState) :
    AppState :=
  let aspect := w / h
  let band := calculateContentBand cfg w
  let thr := (cfg.textureSize : ℚ) * (1 / 10)
  if thr < |band.1 - st.bandMinX| ∨ thr < |band.2 - st.bandMaxX| then
    { aspect := aspect
      bandMinX := band.1
      bandMaxX := band.2
      fields := st.fields
      hairs := createInstancedFur prims cfg band.1 band.2 0 }
  else
    { st with aspect := aspect, bandMinX := band.1, bandMaxX := band.2 }

/-- The activity test of the animation loop: some card's velocity memory
magnitude exceeds the animation threshold. -/
def hasActiveMovement (prims : Prims) (cfg : Config) (cards : List Card) : Prop :=
  ∃ c ∈ cards,
    cfg.animationVelocityThreshold <
      prims.sqrt (c.velMemX * c.velMemX + c.velMemY * c.velMemY)

instance (prims : Prims) (cfg : Config) (cards : List Card) :
    Decidable (hasActiveMovement prims cfg cards) := by
  unfold hasActiveMovement; infer_instance

/-- One animation-frame callback, after the card kinematics have been
resampled: the buffers update only when some card is active, and the
frame is rendered unconditionally (the boolean component). -/
def animateTick (prims : Prims) (cfg : Config) (aspect bmin bmax : ℚ)
    (cards : List Card) (st : FieldState) : FieldState × Bool :=
  (if hasActiveMovement prims cfg cards then
      updateBuffers prims cfg aspect bmin bmax cards st
    else st,
   true)

/-!
Concrete instantiations used by witnesses and counterexamples.

srcConfig carries the script's configuration constants verbatim where they
are rational (seed 137, multiplier 1217, increment 4927, modulus
233280237117, 150000 hair candidates, texture size 1024, and so on); the
two constants the script derives from pi (the base flow angle pi/3 and the
maximum deviation pi/2) are represented by rational stand-ins, which no
witness computation depends on.
-/

/-- The script's configuration constants (rational stand-ins for the two
pi-derived angles). -/
def srcConfig : Config :=
  { textureSize := 1024
    temporalBlendRate := 1/5
    baseFlowAngle := 1
    flowNoiseScale := 3/1000
    flowNoiseMultiplier := 7/10
    angleSpringConstant := 1/100
    maxAngleDeviation := 157/100
    resistanceCurve := 1/10
    glassInfluenceRadius := 40
    gaussianSigmaMultiplier := 1/2
    velocityMagnitudeThreshold := 1/100000
    velocityScalingFactor := 5000
    velocityBlendStrength := 1/5
    turbulenceOctaves := 3
    turbulenceFrequencyMultiplier := 2
    turbulenceAmplitudeMultiplier := 1/2
    turbulenceNormalizationDivisor := 2
    hairScale := 1/20
    hairCount := 150000
    hairThicknessMin := 1/2
    hairThicknessMax := 2
    hairLengthMin := 40
    hairLengthMax := 60
    hairDensity := 10
    hairDensityPower := 2
    opacityBaseMin := 1/10
    opacityBaseRange := 1/4
    opacityTipMin := 1/2
    opacityTipRange := 7/10
    hairPlacementMargin := -100
    randomSeed := 137
    randomMultiplier := 1217
    randomIncrement := 4927
    randomModulus := 233280237117
    contentMaxWidth := 1280
    cameraFrustumSize := 10
    animationVelocityThreshold := 1/10000
    convergenceSmoothing := 2 }

/-- A small-resolution configuration used by simulation witnesses. -/
def smallConfig : Config :=
  { srcConfig with
    textureSize := 16
    glassInfluenceRadius := 2
    hairCount := 4 }

/-- A math-primitive record with simple total rational functions, one of
the two runs compared by the C1 counterexample: only the noise function is
varied, everything platform math provides is held fixed. -/
def mkPrims (noise : ℚ → ℚ → ℚ) : Prims :=
  { noise2D := noise
    exp := fun _ => 1
    sqrt := fun _ => 0
    cos := fun _ => 1
    sin := fun _ => 0
    atan2 := fun _ _ => 0
    powf := fun a _ => a * a }

/-- The noise instance of one run. -/
def noiseRunA : ℚ → ℚ → ℚ := fun _ _ => 1

/-- The noise instance of another run: it differs from noiseRunA only on
negative first arguments. -/
def noiseRunB : ℚ → ℚ → ℚ := fun a _ => if a < 0 then 0 else 1

/-- Math primitives used by the simulation witnesses: exp maps into the
unit interval and sqrt is zero at zero. -/
def simPrims : Prims :=
  { noise2D := fun _ _ => 0
    exp := fun _ => 1/2
    sqrt := fun q => if q ≤ 0 then 0 else 1
    cos := fun _ => 1
    sin := fun _ => 0
    atan2 := fun _ _ => 0
    powf := fun _ _ => 1 }

/-- A card whose texture-space footprint (under aspect 1, frustum size 10,
texture size 16) is centered on cell (3, 3) with half extents 1. -/
def cardAt33 : Card :=
  { posX := -25/8, posY := 25/8, sizeX := 5/4, sizeY := 5/4
    velMemX := 0, velMemY := 0, compression := 1 }

/-- A card whose texture-space footprint (under aspect 1, frustum size 10,
texture size 16) is centered on cell (3, 8) with half extents 1. -/
def cardAt38 : Card :=
  { posX := -25/8, posY := 0, sizeX := 5/4, sizeY := 5/4
    velMemX := 0, velMemY := 0, compression := 1 }

/-- C1 counterexample: hair generation is not byte-identical across runs.
Two runs share the seed (137), the resolution (1024), the hair-candidate
count (150000) and the content band, and agree on every platform math
routine; they differ only in the unseeded simplex-noise instance the
script creates with createNoise2D() (noiseRunA and noiseRunB agree except
on negative first arguments).  Their generated instance sets already
differ at the first instance. -/
theorem c1_counterexample :
    (createInstancedFur (mkPrims noiseRunA) srcConfig (3584/25) (22016/25) 0).head? ≠
      (createInstancedFur (mkPrims noiseRunB) srcConfig (3584/25) (22016/25) 0).head? := by
  with_unfolding_all decide

/-- C1 (amended): with the noise instance fixed (one run of the script),
hair generation is deterministic in the seed, resolution and content band:
createInstancedFurMesh resets the seeded generator to the configured seed,
so two generations produce identical instance sets (same count, same
per-instance attributes, same region bucketing) regardless of the
generator state left by earlier consumption. -/
theorem c1_deterministic_within_run (prims : Prims) (cfg : Config)
    (bmin bmax : ℚ) (s1 s2 : ℕ) :
    createInstancedFur prims cfg bmin bmax s1 =
      createInstancedFur prims cfg bmin bmax s2 := rfl

/-- The clamped deviation lies within the symmetric interval. -/
lemma abs_clampDev_le (m v : ℚ) (h0 : 0 ≤ m) : |clampDev m v| ≤ m := by
  rw [abs_le]
  exact ⟨le_max_left _ _, max_le (neg_le_self h0) (min_le_left _ _)⟩

/-- Every angle value written by the directional-strain step is the rest
angle plus a clamped deviation. -/
lemma angleStepCell_eq_rest_add_clamp (prims : Prims) (cfg : Config)
    (tc : TexCard) (stored : ℚ) (x y : ℕ) :
    ∃ w, angleStepCell prims cfg tc stored x y =
      restAngle prims cfg x y + clampDev cfg.maxAngleDeviation w :=
  ⟨_, rfl⟩

/-- The per-card angle pass preserves the deviation bound. -/
lemma angleAfterCards_dev_bound (prims : Prims) (cfg : Config)
    (h0 : 0 ≤ cfg.maxAngleDeviation) (aspect bmin bmax : ℚ) :
    ∀ (cards : List Card) (a : Buf),
      (∀ x y, |a x y - restAngle prims cfg x y| ≤ cfg.maxAngleDeviation) →
      ∀ x y,
        |angleAfterCards prims cfg aspect bmin bmax cards a x y -
            restAngle prims cfg x y| ≤ cfg.maxAngleDeviation := by
  intro cards
  induction cards with
  | nil => intro a ha x y; exact ha x y
  | cons c cs ih =>
    intro a ha x y
    have hstep : ∀ x y,
        |(if c.compression ≤ 0 then a
          else cardAngleWrite prims cfg bmin bmax (toTexCard cfg aspect c) a) x y -
            restAngle prims cfg x y| ≤ cfg.maxAngleDeviation := by
      intro u v
      by_cases hc : c.compression ≤ 0
      · simpa [hc] using ha u v
      · simp only [hc, if_false, cardAngleWrite]
        by_cases hreg : inCardRegion cfg bmin bmax (toTexCard cfg aspect c) u v
        · simp only [hreg, if_true]
          obtain ⟨w, hw⟩ := angleStepCell_eq_rest_add_clamp prims cfg
            (toTexCard cfg aspect c) (a u v) u v
          rw [hw, add_sub_cancel_left]
          exact abs_clampDev_le _ _ h0
        · simpa [hreg] using ha u v
    exact ih _ hstep x y

/-- C2: deviation-bound invariant.  The angle buffer is initialized at the
rest angles (zero deviation), and in every field state reachable by
per-tick updates the stored angle of every cell differs from that cell's
rest angle by at most the maximum deviation, because every angle write
clamps the resulting deviation. -/
theorem c2_deviation_bound (prims : Prims) (cfg : Config)
    (h0 : 0 ≤ cfg.maxAngleDeviation) :
    (∀ x y : ℕ, (initBuffers prims cfg).angle x y = restAngle prims cfg x y) ∧
    ∀ st : FieldState, Reaches prims cfg st →
      ∀ x y : ℕ,
        |st.angle x y - restAngle prims cfg x y| ≤ cfg.maxAngleDeviation := by
  refine ⟨fun x y => rfl, ?_⟩
  intro st hst
  induction hst with
  | init =>
    intro x y
    simpa [initBuffers] using h0
  | step aspect bmin bmax cards st' hc hst' ih =>
    intro x y
    exact angleAfterCards_dev_bound prims cfg h0 aspect bmin bmax cards st'.angle ih x y

/-- C2 witness: the hypotheses and the conclusion hold at a concrete
configuration, at the initial state. -/
theorem c2_deviation_bound_witness :
    (0:ℚ) ≤ smallConfig.maxAngleDeviation ∧
      |(initBuffers simPrims smallConfig).angle 2 2 -
          restAngle simPrims smallConfig 2 2| ≤ smallConfig.maxAngleDeviation :=
  ⟨by with_unfolding_all decide,
   (c2_deviation_bound simPrims smallConfig (by with_unfolding_all decide)).2 _
     Reaches.init 2 2⟩

/-- Target influences lie in the unit interval provided the card's
compression does and exp maps nonpositive arguments into it. -/
lemma targetInfluence_mem (prims : Prims) (cfg : Config) (tc : TexCard)
    (hexp : ∀ q : ℚ, q ≤ 0 → 0 ≤ prims.exp q ∧ prims.exp q ≤ 1)
    (hc0 : 0 ≤ tc.compression) (hc1 : tc.compression ≤ 1) (x y : ℕ) :
    0 ≤ targetInfluence prims cfg tc x y ∧ targetInfluence prims cfg tc x y ≤ 1 := by
  unfold targetInfluence
  set d := edgeDist prims tc x y with hd
  by_cases h0 : d = 0
  · simp [h0, hc0, hc1]
  · simp only [h0, if_false]
    by_cases h1 : d < cfg.glassInfluenceRadius
    · simp only [h1, if_true]
      set sigma := cfg.glassInfluenceRadius * cfg.gaussianSigmaMultiplier with hs
      have harg : -(d * d) / (2 * sigma * sigma) ≤ 0 := by
        apply div_nonpos_of_nonpos_of_nonneg
        · simpa using mul_self_nonneg d
        · have : 0 ≤ sigma * sigma := mul_self_nonneg sigma
          nlinarith
      obtain ⟨he0, he1⟩ := hexp _ harg
      exact ⟨mul_nonneg hc0 he0, mul_le_one₀ hc1 he0 he1⟩
    · simp [h1]

/-- The per-card influence pass preserves the unit-interval invariant. -/
lemma influenceAfterCards_mem (prims : Prims) (cfg : Config)
    (hexp : ∀ q : ℚ, q ≤ 0 → 0 ≤ prims.exp q ∧ prims.exp q ≤ 1)
    (aspect bmin bmax : ℚ) :
    ∀ (cards : List Card),
      (∀ c ∈ cards, 0 ≤ c.compression ∧ c.compression ≤ 1) →
      ∀ (inf : Buf), (∀ x y, 0 ≤ inf x y ∧ inf x y ≤ 1) →
      ∀ x y, 0 ≤ influenceAfterCards prims cfg aspect bmin bmax cards inf x y ∧
        influenceAfterCards prims cfg aspect bmin bmax cards inf x y ≤ 1 := by
  intro cards
  induction cards with
  | nil => intro _ inf hinf x y; exact hinf x y
  | cons c cs ih =>
    intro hc inf hinf x y
    have hc2 := hc c (List.mem_cons_self c cs)
    have hstep : ∀ u v,
        0 ≤ (if c.compression ≤ 0 then inf
          else cardInfluenceWrite prims cfg bmin bmax (toTexCard cfg aspect c) inf) u v ∧
        (if c.compression ≤ 0 then inf
          else cardInfluenceWrite prims cfg bmin bmax (toTexCard cfg aspect c) inf) u v ≤ 1 := by
      intro u v
      by_cases hcc : c.compression ≤ 0
      · simpa [hcc] using hinf u v
      · simp only [hcc, if_false, cardInfluenceWrite]
        by_cases hw : inCardRegion cfg bmin bmax (toTexCard cfg aspect c) u v ∧
            0 < targetInfluence prims cfg (toTexCard cfg aspect c) u v
        · simp only [hw, if_true]
          obtain ⟨ht0, ht1⟩ := targetInfluence_mem prims cfg (toTexCard cfg aspect c)
            hexp hc2.1 hc2.2 u v
          obtain ⟨hi0, hi1⟩ := hinf u v
          exact ⟨le_max_of_le_left hi0, max_le hi1 ht1⟩
        · simpa [hw] using hinf u v
    exact ih (fun c hmem => hc c (List.mem_cons_of_mem _ hmem)) _ hstep x y

/-- The decay step keeps a unit-interval value in the unit interval. -/
lemma decayCell_mem (cfg : Config) (hbr0 : 0 ≤ cfg.temporalBlendRate)
    (hbr1 : cfg.temporalBlendRate ≤ 1) (v : ℚ) (hv0 : 0 ≤ v) (hv1 : v ≤ 1) :
    0 ≤ decayCell cfg v ∧ decayCell cfg v ≤ 1 := by
  unfold decayCell
  by_cases h : 1 / 1000 < v
  · simp only [h, if_true]
    constructor
    · exact mul_nonneg hv0 (by linarith)
    · calc v * (1 - cfg.temporalBlendRate) ≤ v := by nlinarith
        _ ≤ 1 := hv1
  · simp only [h, if_false]
    by_cases h2 : 0 < v <;> simp [h2, hv0, hv1]

/-- The decay step never increases a value. -/
lemma decayCell_le (cfg : Config) (hbr0 : 0 ≤ cfg.temporalBlendRate)
    (hbr1 : cfg.temporalBlendRate ≤ 1) (v : ℚ) : decayCell cfg v ≤ v := by
  unfold decayCell
  by_cases h : 1 / 1000 < v
  · simp only [h, if_true]
    have hv : 0 ≤ v := le_of_lt (lt_trans (by norm_num) h)
    nlinarith
  · simp only [h, if_false]
    by_cases h2 : 0 < v
    · simp only [h2, if_true]
      linarith
    · simp only [h2, if_false, le_refl]

/-- A cell not influenced by any card this tick keeps its influence value
through the per-card influence pass. -/
lemma influenceAfterCards_eq_of_not_influenced (prims : Prims) (cfg : Config)
    (aspect bmin bmax : ℚ) (x y : ℕ) :
    ∀ (cards : List Card),
      ¬ influencedAt prims cfg aspect bmin bmax cards x y →
      ∀ inf : Buf, influenceAfterCards prims cfg aspect bmin bmax cards inf x y = inf x y := by
  intro cards
  induction cards with
  | nil => intro _ inf; rfl
  | cons c cs ih =>
    intro hni inf
    have hni2 : ¬ influencedAt prims cfg aspect bmin bmax cs x y := by
      intro ⟨c2, hmem, h2⟩
      exact hni ⟨c2, List.mem_cons_of_mem _ hmem, h2⟩
    have hstep : (if c.compression ≤ 0 then inf
        else cardInfluenceWrite prims cfg bmin bmax (toTexCard cfg aspect c) inf) x y = inf x y := by
      by_cases hcc : c.compression ≤ 0
      · simp [hcc]
      · have hnc : ¬ (inCardRegion cfg bmin bmax (toTexCard cfg aspect c) x y ∧
            0 < targetInfluence prims cfg (toTexCard cfg aspect c) x y) := by
          intro hw
          exact hni ⟨c, List.mem_cons_self c cs, lt_of_not_le hcc, hw.1, hw.2⟩
        simp [hcc, cardInfluenceWrite, hnc]
    calc influenceAfterCards prims cfg aspect bmin bmax (c :: cs) inf x y
        = influenceAfterCards prims cfg aspect bmin bmax cs
            (if c.compression ≤ 0 then inf
              else cardInfluenceWrite prims cfg bmin bmax (toTexCard cfg aspect c) inf) x y := rfl
      _ = inf x y := by rw [ih hni2 _, hstep]

/-- C3 (amended): the influence buffer stays in the unit interval in every
reachable field state; and a cell with no covering card in a tick decays by
exactly the factor one minus the blend rate when it lies inside that tick's
decay region (the union of the current and previous dirty bounds expanded
by the influence radius, clamped to the content band) and its value exceeds
the snap epsilon, snaps to exactly zero when its value is positive but at
most the epsilon, and is left completely unchanged when it lies outside the
decay region. -/
theorem c3_influence_range_and_decay (prims : Prims) (cfg : Config)
    (hexp : ∀ q : ℚ, q ≤ 0 → 0 ≤ prims.exp q ∧ prims.exp q ≤ 1)
    (hbr0 : 0 ≤ cfg.temporalBlendRate) (hbr1 : cfg.temporalBlendRate ≤ 1) :
    (∀ st : FieldState, Reaches prims cfg st →
      ∀ x y : ℕ, 0 ≤ st.influence x y ∧ st.influence x y ≤ 1) ∧
    (∀ (aspect bmin bmax : ℚ) (cards : List Card) (st : FieldState) (x y : ℕ),
      ¬ influencedAt prims cfg aspect bmin bmax cards x y →
      (updateBuffers prims cfg aspect bmin bmax cards st).influence x y =
        if inDecayRegion cfg aspect bmin bmax cards st.prevBounds x y then
          (if 1 / 1000 < st.influence x y then
            st.influence x y * (1 - cfg.temporalBlendRate)
          else if 0 < st.influence x y then 0
          else st.influence x y)
        else st.influence x y) := by
  constructor
  · intro st hst
    induction hst with
    | init => intro x y; simp [initBuffers]
    | step aspect bmin bmax cards st' hc hst' ih =>
      intro x y
      have heq : (updateBuffers prims cfg aspect bmin bmax cards st').influence x y =
          influenceAfterDecay prims cfg aspect bmin bmax cards st'.prevBounds
            (influenceAfterCards prims cfg aspect bmin bmax cards st'.influence) x y := rfl
      rw [heq]
      unfold influenceAfterDecay
      have hmem := influenceAfterCards_mem prims cfg hexp aspect bmin bmax cards hc
        st'.influence ih x y
      split
      · exact decayCell_mem cfg hbr0 hbr1 _ hmem.1 hmem.2
      · exact hmem
  · intro aspect bmin bmax cards st x y hni
    show influenceAfterDecay prims cfg aspect bmin bmax cards st.prevBounds
        (influenceAfterCards prims cfg aspect bmin bmax cards st.influence) x y = _
    unfold influenceAfterDecay
    rw [influenceAfterCards_eq_of_not_influenced prims cfg aspect bmin bmax x y cards hni]
    by_cases hreg : inDecayRegion cfg aspect bmin bmax cards st.prevBounds x y
    · simp [hreg, hni, decayCell]
    · simp [hreg, hni]

/-- C3 witness: the hypotheses hold at a concrete primitive record and
configuration, and both conjuncts apply: the initial influence lies in the
unit interval, and at a concrete uninfluenced cell inside the decay region
a zero influence stays exactly zero. -/
theorem c3_influence_range_and_decay_witness :
    (0 ≤ (initBuffers simPrims smallConfig).influence 3 3 ∧
      (initBuffers simPrims smallConfig).influence 3 3 ≤ 1) ∧
    (updateBuffers simPrims smallConfig 1 0 16 []
        (initBuffers simPrims smallConfig)).influence 3 3 = 0 := by
  have h := c3_influence_range_and_decay simPrims smallConfig
    (by intro q hq; constructor <;> norm_num [simPrims])
    (by with_unfolding_all decide) (by with_unfolding_all decide)
  refine ⟨h.1 _ Reaches.init 3 3, ?_⟩
  have h2 := h.2 1 0 16 [] (initBuffers simPrims smallConfig) 3 3
    (by with_unfolding_all decide)
  rw [h2]
  with_unfolding_all decide

/-- First tick of the C3 counterexample run: a full-compression card
covers cell (3, 3), raising its influence to 1. -/
def c3tick1 : FieldState :=
  updateBuffers simPrims smallConfig 1 0 16 [cardAt33] (initBuffers simPrims smallConfig)

/-- Second tick of the C3 counterexample run: no cards; cell (3, 3) lies
inside the decay region spanned by the previous tick's dirty bounds and
decays to 4/5. -/
def c3tick2 : FieldState :=
  updateBuffers simPrims smallConfig 1 0 16 [] c3tick1

/-- Third tick of the C3 counterexample run: no cards; both the current
and the previous dirty bounds are now degenerate, the decay region is
empty, and cell (3, 3) is not decayed at all. -/
def c3tick3 : FieldState :=
  updateBuffers simPrims smallConfig 1 0 16 [] c3tick2

/-- C3 counterexample: a cell covered by no card in consecutive ticks need
not decay geometrically.  At the third tick, cell (3, 3) is covered by no
card (the card list is empty), its stored influence 4/5 is far above the
snap epsilon, yet its influence after the tick is unchanged instead of
being multiplied by one minus the blend rate, because the cell has left
the union of the current and previous dirty bounding boxes. -/
theorem c3_counterexample :
    ¬ influencedAt simPrims smallConfig 1 0 16 [] 3 3 ∧
    1 / 1000 < c3tick2.influence 3 3 ∧
    c3tick3.influence 3 3 ≠
      c3tick2.influence 3 3 * (1 - smallConfig.temporalBlendRate) := by
  refine ⟨?_, ?_, ?_⟩ <;> with_unfolding_all decide

/-- C9: degenerate inputs are valid steady states.  A tick with zero
tracked cards leaves the angle buffer identical, performs no compression
write (the influence of every cell is bounded by its previous value), the
animation callback still renders the frame (and, because the activity test
fails, does not even touch the buffers), and a region with zero generated
hairs produces no mesh rather than an error. -/
theorem c9_degenerate_inputs (prims : Prims) (cfg : Config)
    (aspect bmin bmax : ℚ) (st : FieldState)
    (hbr0 : 0 ≤ cfg.temporalBlendRate) (hbr1 : cfg.temporalBlendRate ≤ 1) :
    (updateBuffers prims cfg aspect bmin bmax [] st).angle = st.angle ∧
    (∀ x y : ℕ,
      (updateBuffers prims cfg aspect bmin bmax [] st).influence x y ≤ st.influence x y) ∧
    createRegionMesh [] = none ∧
    (animateTick prims cfg aspect bmin bmax [] st).2 = true ∧
    (animateTick prims cfg aspect bmin bmax [] st).1 = st := by
  refine ⟨rfl, ?_, rfl, rfl, ?_⟩
  · intro x y
    show influenceAfterDecay prims cfg aspect bmin bmax [] st.prevBounds st.influence x y ≤ _
    unfold influenceAfterDecay
    split
    · exact decayCell_le cfg hbr0 hbr1 _
    · exact le_refl _
  · simp [animateTick, hasActiveMovement]

/-- C9 witness: concrete instantiation of the zero-card tick and the
empty-region mesh. -/
theorem c9_degenerate_inputs_witness :
    (updateBuffers simPrims smallConfig 1 0 16 []
        (initBuffers simPrims smallConfig)).influence 3 3 ≤
      (initBuffers simPrims smallConfig).influence 3 3 ∧
    createRegionMesh [] = none := by
  have h := c9_degenerate_inputs simPrims smallConfig 1 0 16
    (initBuffers simPrims smallConfig)
    (by with_unfolding_all decide) (by with_unfolding_all decide)
  exact ⟨h.2.1 3 3, h.2.2.1⟩

/-- Values of the top and bottom edge copy at the four boundary-relevant
rows, for a resolution of at least three. -/
lemma fixTopBottom_at (n : ℕ) (h3 : 3 ≤ n) (b : Buf) (j : ℕ) :
    fixTopBottom n b j 0 = b j 1 ∧ fixTopBottom n b j 1 = b j 1 ∧
    fixTopBottom n b j (n - 1) = b j (n - 2) ∧
    fixTopBottom n b j (n - 2) = b j (n - 2) := by
  unfold fixTopBottom
  refine ⟨by simp, ?_, ?_, ?_⟩
  · have h1 : (1:ℕ) ≠ n - 1 := by omega
    simp [h1]
  · have h1 : n - 1 ≠ 0 := by omega
    simp [h1]
  · have h1 : n - 2 ≠ 0 := by omega
    have h2 : n - 2 ≠ n - 1 := by omega
    simp [h1, h2]

/-- After both edge-copy passes every boundary row and column agrees with
its adjacent interior neighbour. -/
lemma fixEdges_neumann (n : ℕ) (h3 : 3 ≤ n) (b : Buf) (i : ℕ) :
    fixLeftRight n (fixTopBottom n b) i 0 = fixLeftRight n (fixTopBottom n b) i 1 ∧
    fixLeftRight n (fixTopBottom n b) i (n - 1) =
      fixLeftRight n (fixTopBottom n b) i (n - 2) ∧
    fixLeftRight n (fixTopBottom n b) 0 i = fixLeftRight n (fixTopBottom n b) 1 i ∧
    fixLeftRight n (fixTopBottom n b) (n - 1) i =
      fixLeftRight n (fixTopBottom n b) (n - 2) i := by
  have hTB := fun j => fixTopBottom_at n h3 b j
  have h10 : (1:ℕ) ≠ 0 := one_ne_zero
  have h1n : (1:ℕ) ≠ n - 1 := by omega
  have hn0 : n - 1 ≠ 0 := by omega
  have hn20 : n - 2 ≠ 0 := by omega
  have hn2n : n - 2 ≠ n - 1 := by omega
  refine ⟨?_, ?_, ?_, ?_⟩
  · unfold fixLeftRight
    split_ifs <;> rw [(hTB _).1, (hTB _).2.1]
  · unfold fixLeftRight
    split_ifs <;> rw [(hTB _).2.2.1, (hTB _).2.2.2]
  · unfold fixLeftRight
    simp [h10, h1n]
  · unfold fixLeftRight
    simp [hn0, hn20, hn2n]

/-- C7: Neumann boundary condition.  After every per-tick update, each
boundary-row and boundary-column cell of the convergence buffer equals its
adjacent interior neighbour: the top row equals row 1, the bottom row
equals row n − 2, the left column equals column 1, and the right column
equals column n − 2. -/
theorem c7_neumann_boundary (prims : Prims) (cfg : Config)
    (aspect bmin bmax : ℚ) (cards : List Card) (st : FieldState)
    (h3 : 3 ≤ cfg.textureSize) (i : ℕ) :
    (updateBuffers prims cfg aspect bmin bmax cards st).convergence i 0 =
      (updateBuffers prims cfg aspect bmin bmax cards st).convergence i 1 ∧
    (updateBuffers prims cfg aspect bmin bmax cards st).convergence i (cfg.textureSize - 1) =
      (updateBuffers prims cfg aspect bmin bmax cards st).convergence i (cfg.textureSize - 2) ∧
    (updateBuffers prims cfg aspect bmin bmax cards st).convergence 0 i =
      (updateBuffers prims cfg aspect bmin bmax cards st).convergence 1 i ∧
    (updateBuffers prims cfg aspect bmin bmax cards st).convergence (cfg.textureSize - 1) i =
      (updateBuffers prims cfg aspect bmin bmax cards st).convergence (cfg.textureSize - 2) i :=
  fixEdges_neumann cfg.textureSize h3
    (convInterior prims cfg bmin bmax
      (angleAfterCards prims cfg aspect bmin bmax cards st.angle) st.convergence) i

/-- C7 witness: the resolution hypothesis holds at the concrete
configuration and the top-row equality follows at a concrete cell. -/
theorem c7_neumann_boundary_witness :
    3 ≤ smallConfig.textureSize ∧
      (updateBuffers simPrims smallConfig 1 0 16 [cardAt33]
          (initBuffers simPrims smallConfig)).convergence 5 0 =
        (updateBuffers simPrims smallConfig 1 0 16 [cardAt33]
            (initBuffers simPrims smallConfig)).convergence 5 1 :=
  ⟨by with_unfolding_all decide,
   (c7_neumann_boundary simPrims smallConfig 1 0 16 [cardAt33]
      (initBuffers simPrims smallConfig) (by with_unfolding_all decide) 5).1⟩

/-- Modelled from the claim wording of C5: the resistance factor, one
minus the normalized absolute deviation (capped at one), raised to the
resistance-curve exponent. -/
def resistanceSpec (prims : Prims) (cfg : Config) (stored restA : ℚ) : ℚ :=
  prims.powf (1 - min (|stored - restA| / cfg.maxAngleDeviation) 1) cfg.resistanceCurve

/-- Modelled from the claim wording of C5: the target angle is the rest
angle, unless the velocity-memory magnitude exceeds the velocity threshold
and the cell lies within the influence radius, in which case the rest
angle is blended toward atan2(-vy, vx) with strength Gaussian falloff
times clamped velocity magnitude times the velocity blend strength. -/
def targetAngleSpec (prims : Prims) (cfg : Config) (tc : TexCard) (x y : ℕ) : ℚ :=
  let restA := restAngle prims cfg x y
  let velMag := prims.sqrt (tc.vmx * tc.vmx + tc.vmy * tc.vmy)
  let d := edgeDist prims tc x y
  if cfg.velocityMagnitudeThreshold < velMag ∧ d < cfg.glassInfluenceRadius then
    let sigma := cfg.glassInfluenceRadius * cfg.gaussianSigmaMultiplier
    let gaussianFalloff := if d = 0 then 1 else prims.exp (-(d * d) / (2 * sigma * sigma))
    let strength :=
      gaussianFalloff * min (velMag * cfg.velocityScalingFactor) 1 * cfg.velocityBlendStrength
    restA * (1 - strength) + prims.atan2 (-tc.vmy) tc.vmx * strength
  else restA

/-- Modelled from the claim wording of C5: the new angle before clamping
is the stored angle plus the blend toward the target, weighted by the
blend rate and the resistance, plus the spring restoring force. -/
def newAngleSpec (prims : Prims) (cfg : Config) (tc : TexCard)
    (stored : ℚ) (x y : ℕ) : ℚ :=
  let restA := restAngle prims cfg x y
  stored +
    (targetAngleSpec prims cfg tc x y - stored) * cfg.temporalBlendRate *
      resistanceSpec prims cfg stored restA +
    -(stored - restA) * cfg.angleSpringConstant

/-- The directional-strain step of the script agrees with the per-cell
update step as worded in the specification (for the script's cards, whose
compression is one, so that the claim's bare Gaussian falloff coincides
with the code's compression-scaled influence strength). -/
lemma angleStepCell_eq_spec (prims : Prims) (cfg : Config) (tc : TexCard)
    (hc : tc.compression = 1) (stored : ℚ) (x y : ℕ) :
    angleStepCell prims cfg tc stored x y =
      restAngle prims cfg x y +
        clampDev cfg.maxAngleDeviation
          (newAngleSpec prims cfg tc stored x y - restAngle prims cfg x y) := by
  simp only [angleStepCell, newAngleSpec, targetAngleSpec, resistanceSpec, hc]
  congr 2
  split_ifs <;> ring

/-- C5: the per-cell angle update of a tick.  For a single card of
compression one, every cell of the card's update region stores the rest
angle plus the clamped difference between the specification's new angle
(blend toward the velocity-aware target with resistance, plus spring
restoring force) and the rest angle. -/
theorem c5_angle_step (prims : Prims) (cfg : Config) (aspect bmin bmax : ℚ)
    (card : Card) (st : FieldState) (x y : ℕ)
    (hcomp : card.compression = 1)
    (hreg : inCardRegion cfg bmin bmax (toTexCard cfg aspect card) x y) :
    (updateBuffers prims cfg aspect bmin bmax [card] st).angle x y =
      restAngle prims cfg x y +
        clampDev cfg.maxAngleDeviation
          (newAngleSpec prims cfg (toTexCard cfg aspect card) (st.angle x y) x y -
            restAngle prims cfg x y) := by
  have h1 : ¬ (card.compression ≤ 0) := by rw [hcomp]; norm_num
  have hcomp2 : (toTexCard cfg aspect card).compression = 1 := hcomp
  have heq : (updateBuffers prims cfg aspect bmin bmax [card] st).angle x y =
      angleStepCell prims cfg (toTexCard cfg aspect card) (st.angle x y) x y := by
    show angleAfterCards prims cfg aspect bmin bmax [card] st.angle x y = _
    simp only [angleAfterCards, List.foldl, h1, if_false, cardAngleWrite, hreg, if_true]
  rw [heq, angleStepCell_eq_spec prims cfg _ hcomp2]

/-- C5 witness: at a concrete card, configuration and cell, the stored
angle after the tick equals the specification formula. -/
theorem c5_angle_step_witness :
    cardAt33.compression = 1 ∧
    inCardRegion smallConfig 0 16 (toTexCard smallConfig 1 cardAt33) 3 3 ∧
    (updateBuffers simPrims smallConfig 1 0 16 [cardAt33]
        (initBuffers simPrims smallConfig)).angle 3 3 =
      restAngle simPrims smallConfig 3 3 +
        clampDev smallConfig.maxAngleDeviation
          (newAngleSpec simPrims smallConfig (toTexCard smallConfig 1 cardAt33)
              ((initBuffers simPrims smallConfig).angle 3 3) 3 3 -
            restAngle simPrims smallConfig 3 3) :=
  ⟨rfl, by with_unfolding_all decide,
   c5_angle_step simPrims smallConfig 1 0 16 cardAt33
     (initBuffers simPrims smallConfig) 3 3 rfl (by with_unfolding_all decide)⟩

/-- Effective target influence of a card at a cell during a tick: the
card's target influence when the card is processed, the cell lies in its
clamped update region and the target is positive; zero otherwise. -/
def effTarget (prims : Prims) (cfg : Config) (aspect bmin bmax : ℚ)
    (c : Card) (x y : ℕ) : ℚ :=
  if 0 < c.compression ∧ inCardRegion cfg bmin bmax (toTexCard cfg aspect c) x y ∧
      0 < targetInfluence prims cfg (toTexCard cfg aspect c) x y then
    targetInfluence prims cfg (toTexCard cfg aspect c) x y
  else 0

/-- The per-card influence pass computes the maximum of the stored value
and the effective targets of all cards, in any order. -/
lemma influenceAfterCards_eq_max (prims : Prims) (cfg : Config)
    (aspect bmin bmax : ℚ) :
    ∀ (cards : List Card) (inf : Buf) (x y : ℕ), 0 ≤ inf x y →
      influenceAfterCards prims cfg aspect bmin bmax cards inf x y =
        max (inf x y)
          (cards.foldr (fun c m => max (effTarget prims cfg aspect bmin bmax c x y) m) 0) := by
  intro cards
  induction cards with
  | nil =>
    intro inf x y h0
    show inf x y = max (inf x y) 0
    exact (max_eq_left h0).symm
  | cons c cs ih =>
    intro inf x y h0
    have hstep : (if c.compression ≤ 0 then inf
        else cardInfluenceWrite prims cfg bmin bmax (toTexCard cfg aspect c) inf) x y =
          max (inf x y) (effTarget prims cfg aspect bmin bmax c x y) := by
      by_cases hcc : c.compression ≤ 0
      · have hnc : ¬ (0 < c.compression) := not_lt.mpr hcc
        simp [hcc, effTarget, hnc, max_eq_left h0]
      · have hpc : 0 < c.compression := lt_of_not_le hcc
        by_cases hw : inCardRegion cfg bmin bmax (toTexCard cfg aspect c) x y ∧
            0 < targetInfluence prims cfg (toTexCard cfg aspect c) x y
        · simp [hcc, cardInfluenceWrite, hw, effTarget, hpc]
        · simp [hcc, cardInfluenceWrite, hw, effTarget, max_eq_left h0]
    have h02 : 0 ≤ (if c.compression ≤ 0 then inf
        else cardInfluenceWrite prims cfg bmin bmax (toTexCard cfg aspect c) inf) x y := by
      rw [hstep]; exact le_max_of_le_left h0
    calc influenceAfterCards prims cfg aspect bmin bmax (c :: cs) inf x y
        = influenceAfterCards prims cfg aspect bmin bmax cs
            (if c.compression ≤ 0 then inf
              else cardInfluenceWrite prims cfg bmin bmax (toTexCard cfg aspect c) inf) x y := rfl
      _ = max ((if c.compression ≤ 0 then inf
            else cardInfluenceWrite prims cfg bmin bmax (toTexCard cfg aspect c) inf) x y)
            (cs.foldr (fun c2 m => max (effTarget prims cfg aspect bmin bmax c2 x y) m) 0) :=
          ih _ x y h02
      _ = max (max (inf x y) (effTarget prims cfg aspect bmin bmax c x y))
            (cs.foldr (fun c2 m => max (effTarget prims cfg aspect bmin bmax c2 x y) m) 0) := by
          rw [hstep]
      _ = max (inf x y)
            ((c :: cs).foldr (fun c2 m => max (effTarget prims cfg aspect bmin bmax c2 x y) m) 0) :=
          max_assoc _ _ _

/-- C10: for a cell receiving a positive target influence from some card
this tick, the stored influence after the tick equals the maximum of the
previous stored influence and the largest effective target influence over
all cards; consequently a covered cell's influence never decreases while
it remains covered. -/
theorem c10_influence_max (prims : Prims) (cfg : Config)
    (aspect bmin bmax : ℚ) (cards : List Card) (st : FieldState) (x y : ℕ)
    (h0 : 0 ≤ st.influence x y)
    (hpos : ∃ c ∈ cards, 0 < effTarget prims cfg aspect bmin bmax c x y) :
    (updateBuffers prims cfg aspect bmin bmax cards st).influence x y =
      max (st.influence x y)
        (cards.foldr (fun c m => max (effTarget prims cfg aspect bmin bmax c x y) m) 0) ∧
    st.influence x y ≤ (updateBuffers prims cfg aspect bmin bmax cards st).influence x y := by
  have hinfl : influencedAt prims cfg aspect bmin bmax cards x y := by
    obtain ⟨c, hmem, hc⟩ := hpos
    unfold effTarget at hc
    by_cases hcond : 0 < c.compression ∧
        inCardRegion cfg bmin bmax (toTexCard cfg aspect c) x y ∧
        0 < targetInfluence prims cfg (toTexCard cfg aspect c) x y
    · exact ⟨c, hmem, hcond⟩
    · rw [if_neg hcond] at hc
      exact absurd hc (lt_irrefl 0)
  have heq : (updateBuffers prims cfg aspect bmin bmax cards st).influence x y =
      influenceAfterCards prims cfg aspect bmin bmax cards st.influence x y := by
    show influenceAfterDecay prims cfg aspect bmin bmax cards st.prevBounds
        (influenceAfterCards prims cfg aspect bmin bmax cards st.influence) x y = _
    unfold influenceAfterDecay
    simp [hinfl]
  constructor
  · rw [heq, influenceAfterCards_eq_max prims cfg aspect bmin bmax cards st.influence x y h0]
  · rw [heq, influenceAfterCards_eq_max prims cfg aspect bmin bmax cards st.influence x y h0]
    exact le_max_left _ _

/-- C10 witness: concrete card covering cell (3, 3) from a zero influence
state; the stored value becomes the maximum. -/
theorem c10_influence_max_witness :
    (updateBuffers simPrims smallConfig 1 0 16 [cardAt33]
        (initBuffers simPrims smallConfig)).influence 3 3 =
      max ((initBuffers simPrims smallConfig).influence 3 3)
        ([cardAt33].foldr
          (fun c m => max (effTarget simPrims smallConfig 1 0 16 c 3 3) m) 0) ∧
    (initBuffers simPrims smallConfig).influence 3 3 ≤
      (updateBuffers simPrims smallConfig 1 0 16 [cardAt33]
          (initBuffers simPrims smallConfig)).influence 3 3 :=
  c10_influence_max simPrims smallConfig 1 0 16 [cardAt33]
    (initBuffers simPrims smallConfig) 3 3 (le_refl 0)
    ⟨cardAt33, List.mem_singleton.mpr rfl, by with_unfolding_all decide⟩

/-- C8 counterexample: a cell whose x coordinate lies strictly outside
the stored content band can still be written by a tick.  With the band
at 7/2, the column clamp floors to 3, so the cell (3, 8), outside
the band interval, receives a full influence write from a covering card
and its influence changes from 0 to 1. -/
theorem c8_counterexample :
    (3 : ℚ) < 7/2 ∧
    (updateBuffers simPrims smallConfig 1 (7/2) (25/2) [cardAt38]
        (initBuffers simPrims smallConfig)).influence 3 8 ≠
      (initBuffers simPrims smallConfig).influence 3 8 := by
  constructor <;> with_unfolding_all decide

/-- Cells whose x coordinate falls left of the floored band minimum or
right of the ceiled band maximum lie in no card's update region. -/
lemma not_inCardRegion_of_outside (cfg : Config) (bmin bmax : ℚ) (tc : TexCard)
    (x y : ℕ) (hx : (x:ℤ) < ⌊bmin⌋ ∨ ⌈bmax⌉ < (x:ℤ)) :
    ¬ inCardRegion cfg bmin bmax tc x y := by
  intro ⟨h1, h2, _, _⟩
  rcases hx with hx | hx
  · exact absurd (le_trans (le_max_right _ _) h1) (not_le.mpr hx)
  · exact absurd (le_trans h2 (min_le_right _ _)) (not_le.mpr hx)

/-- The per-card angle pass leaves cells outside the clamped band columns
unchanged. -/
lemma angleAfterCards_outside (prims : Prims) (cfg : Config)
    (aspect bmin bmax : ℚ) (x y : ℕ)
    (hx : (x:ℤ) < ⌊bmin⌋ ∨ ⌈bmax⌉ < (x:ℤ)) :
    ∀ (cards : List Card) (a : Buf),
      angleAfterCards prims cfg aspect bmin bmax cards a x y = a x y := by
  intro cards
  induction cards with
  | nil => intro a; rfl
  | cons c cs ih =>
    intro a
    have hstep : (if c.compression ≤ 0 then a
        else cardAngleWrite prims cfg bmin bmax (toTexCard cfg aspect c) a) x y = a x y := by
      by_cases hcc : c.compression ≤ 0
      · simp [hcc]
      · simp [hcc, cardAngleWrite,
          not_inCardRegion_of_outside cfg bmin bmax (toTexCard cfg aspect c) x y hx]
    calc angleAfterCards prims cfg aspect bmin bmax (c :: cs) a x y
        = angleAfterCards prims cfg aspect bmin bmax cs
            (if c.compression ≤ 0 then a
              else cardAngleWrite prims cfg bmin bmax (toTexCard cfg aspect c) a) x y := rfl
      _ = a x y := by rw [ih _, hstep]

/-- Cells outside the clamped band columns lie outside the decay region. -/
lemma not_inDecayRegion_of_outside (cfg : Config) (aspect bmin bmax : ℚ)
    (cards : List Card) (prev : Bounds) (x y : ℕ)
    (hx : (x:ℤ) < ⌊bmin⌋ ∨ ⌈bmax⌉ < (x:ℤ)) :
    ¬ inDecayRegion cfg aspect bmin bmax cards prev x y := by
  intro ⟨h1, h2, _, _⟩
  rcases hx with hx | hx
  · exact absurd (le_trans (le_max_left _ _) h1) (not_le.mpr hx)
  · exact absurd (le_trans h2 (min_le_left _ _)) (not_le.mpr hx)

/-- Cells outside the clamped band columns are influenced by no card. -/
lemma not_influencedAt_of_outside (prims : Prims) (cfg : Config)
    (aspect bmin bmax : ℚ) (cards : List Card) (x y : ℕ)
    (hx : (x:ℤ) < ⌊bmin⌋ ∨ ⌈bmax⌉ < (x:ℤ)) :
    ¬ influencedAt prims cfg aspect bmin bmax cards x y := by
  intro ⟨c, _, _, hreg, _⟩
  exact not_inCardRegion_of_outside cfg bmin bmax (toTexCard cfg aspect c) x y hx hreg

/-- C8 (amended): frame property outside the clamped band columns.  With
a fixed content band, for every cell whose x coordinate lies left of the
floored band minimum or right of the ceiled band maximum (the column
range the script actually clamps to), every reachable state keeps the
initialization values: the angle equals the rest angle, the influence is
zero, and — away from the outermost left and right columns, which the
Neumann copy rewrites — the convergence is zero. -/
theorem c8_outside_band_frame (prims : Prims) (cfg : Config) (bmin bmax : ℚ)
    (st : FieldState) (hst : ReachesBand prims cfg bmin bmax st) (x : ℕ)
    (hx : (x:ℤ) < ⌊bmin⌋ ∨ ⌈bmax⌉ < (x:ℤ)) :
    ∀ y : ℕ,
      st.angle x y = restAngle prims cfg x y ∧
      st.influence x y = 0 ∧
      (0 < x → x + 1 < cfg.textureSize → st.convergence x y = 0) := by
  induction hst with
  | init => exact fun y => ⟨rfl, rfl, fun _ _ => rfl⟩
  | step aspect cards st' hc hst' ih =>
    intro y
    refine ⟨?_, ?_, ?_⟩
    · show angleAfterCards prims cfg aspect bmin bmax cards st'.angle x y = _
      rw [angleAfterCards_outside prims cfg aspect bmin bmax x y hx cards st'.angle]
      exact (ih y).1
    · show influenceAfterDecay prims cfg aspect bmin bmax cards st'.prevBounds
          (influenceAfterCards prims cfg aspect bmin bmax cards st'.influence) x y = 0
      unfold influenceAfterDecay
      have hnd := not_inDecayRegion_of_outside cfg aspect bmin bmax cards st'.prevBounds x y hx
      have hni := not_influencedAt_of_outside prims cfg aspect bmin bmax cards x y hx
      rw [if_neg (fun h => hnd h.1),
        influenceAfterCards_eq_of_not_influenced prims cfg aspect bmin bmax x y cards hni]
      exact (ih y).2.1
    · intro hx0 hxn
      show fixLeftRight cfg.textureSize
          (fixTopBottom cfg.textureSize
            (convInterior prims cfg bmin bmax
              (angleAfterCards prims cfg aspect bmin bmax cards st'.angle)
              st'.convergence)) x y = 0
      have hcv1 : ∀ y2 : ℕ, convInterior prims cfg bmin bmax
          (angleAfterCards prims cfg aspect bmin bmax cards st'.angle)
          st'.convergence x y2 = 0 := by
        intro y2
        unfold convInterior
        rw [if_neg ?_]
        · exact (ih y2).2.2 hx0 hxn
        · intro ⟨_, _, h3, h4⟩
          rcases hx with hx | hx
          · exact absurd (le_trans (le_max_right _ _) h3) (not_le.mpr hx)
          · exact absurd (lt_of_lt_of_le h4 (min_le_right _ _)) (not_lt.mpr (le_of_lt hx))
      have hxne0 : x ≠ 0 := Nat.pos_iff_ne_zero.mp hx0
      have hxnen1 : x ≠ cfg.textureSize - 1 := by omega
      unfold fixLeftRight fixTopBottom
      simp only [hxne0, hxnen1, if_false]
      split_ifs <;> exact hcv1 _

/-- C8 witness: for a concrete run with the band stored at 7/2 to 25/2,
the cell at column 2 (left of the floored band minimum 3) keeps its
initialization values through a tick that writes the band interior. -/
theorem c8_outside_band_frame_witness :
    ((2:ℤ) < ⌊(7/2 : ℚ)⌋ ∨ ⌈(25/2 : ℚ)⌉ < (2:ℤ)) ∧
    (updateBuffers simPrims smallConfig 1 (7/2) (25/2) [cardAt38]
        (initBuffers simPrims smallConfig)).influence 2 8 = 0 := by
  have hr : ReachesBand simPrims smallConfig (7/2) (25/2)
      (updateBuffers simPrims smallConfig 1 (7/2) (25/2) [cardAt38]
        (initBuffers simPrims smallConfig)) :=
    ReachesBand.step 1 [cardAt38] _
      (by
        intro c hcm
        rw [List.mem_singleton] at hcm
        subst hcm
        constructor <;> norm_num [cardAt38])
      ReachesBand.init
  refine ⟨Or.inl (by with_unfolding_all decide), ?_⟩
  exact (c8_outside_band_frame simPrims smallConfig (7/2) (25/2) _ hr 2
    (Or.inl (by with_unfolding_all decide)) 8).2.1

/-- Application state used by the resize scenarios: a stale influence
value of 1 is stored at cell (5, 5), and the band matches a 2000 pixel
wide window. -/
def c6state : AppState :=
  { aspect := 1
    bandMinX := 3584/25
    bandMaxX := 22016/25
    fields :=
      { angle := fun _ _ => 0
        influence := fun x y => if x = 5 ∧ y = 5 then 1 else 0
        convergence := fun _ _ => 0
        prevBounds := { minX := 0, maxX := 0, minY := 0, maxY := 0 } }
    hairs := [] }

/-- C6 counterexample: a resize that shifts the content band by more than
a tenth of the field resolution does not re-initialize the field buffers.
Resizing the 2000 pixel window to 10000 pixels shifts the band minimum by
about 295 texels (threshold 102.4), yet the stale influence value 1 at
cell (5, 5) survives the resize, whereas a full re-initialization stores
zero there. -/
theorem c6_counterexample :
    ((srcConfig.textureSize : ℚ) * (1 / 10) <
      |(calculateContentBand srcConfig 10000).1 - c6state.bandMinX|) ∧
    (handleResize (mkPrims noiseRunA) srcConfig 10000 5000 c6state).fields.influence 5 5 = 1 ∧
    (initBuffers (mkPrims noiseRunA) srcConfig).influence 5 5 = 0 := by
  refine ⟨?_, ?_, ?_⟩ <;> with_unfolding_all decide

/-- C6 (amended): on a resize the content band is recomputed and the
renderer aspect updated; when either band boundary moves by more than a
tenth of the field resolution the hair instance set is regenerated from
the reset seeded generator with the new band, otherwise the instance set
is left unchanged; the field buffers are carried over unchanged in both
branches (no field re-initialization happens on resize). -/
theorem c6_resize_behavior (prims : Prims) (cfg : Config) (w h : ℚ)
    (st : AppState) :
    (handleResize prims cfg w h st).fields = st.fields ∧
    (handleResize prims cfg w h st).aspect = w / h ∧
    (handleResize prims cfg w h st).bandMinX = (calculateContentBand cfg w).1 ∧
    (handleResize prims cfg w h st).bandMaxX = (calculateContentBand cfg w).2 ∧
    (((cfg.textureSize : ℚ) * (1 / 10) <
        |(calculateContentBand cfg w).1 - st.bandMinX| ∨
      (cfg.textureSize : ℚ) * (1 / 10) <
        |(calculateContentBand cfg w).2 - st.bandMaxX|) →
      (handleResize prims cfg w h st).hairs =
        createInstancedFur prims cfg (calculateContentBand cfg w).1
          (calculateContentBand cfg w).2 0) ∧
    (¬ ((cfg.textureSize : ℚ) * (1 / 10) <
        |(calculateContentBand cfg w).1 - st.bandMinX| ∨
      (cfg.textureSize : ℚ) * (1 / 10) <
        |(calculateContentBand cfg w).2 - st.bandMaxX|) →
      (handleResize prims cfg w h st).hairs = st.hairs) := by
  unfold handleResize
  by_cases hcond : (cfg.textureSize : ℚ) * (1 / 10) <
      |(calculateContentBand cfg w).1 - st.bandMinX| ∨
    (cfg.textureSize : ℚ) * (1 / 10) <
      |(calculateContentBand cfg w).2 - st.bandMaxX|
  · rw [if_pos hcond]
    exact ⟨rfl, rfl, rfl, rfl, fun _ => rfl, fun hn => absurd hcond hn⟩
  · rw [if_neg hcond]
    exact ⟨rfl, rfl, rfl, rfl, fun hp => absurd hp hcond, fun _ => rfl⟩

/-- C6 witness: on the concrete large resize the shift condition holds,
the field buffers are carried over, and the instances are regenerated
with the new band. -/
theorem c6_resize_behavior_witness :
    ((srcConfig.textureSize : ℚ) * (1 / 10) <
      |(calculateContentBand srcConfig 10000).1 - c6state.bandMinX| ∨
    (srcConfig.textureSize : ℚ) * (1 / 10) <
      |(calculateContentBand srcConfig 10000).2 - c6state.bandMaxX|) ∧
    (handleResize (mkPrims noiseRunA) srcConfig 10000 5000 c6state).fields = c6state.fields ∧
    (handleResize (mkPrims noiseRunA) srcConfig 10000 5000 c6state).hairs =
      createInstancedFur (mkPrims noiseRunA) srcConfig
        (calculateContentBand srcConfig 10000).1
        (calculateContentBand srcConfig 10000).2 0 := by
  have h := c6_resize_behavior (mkPrims noiseRunA) srcConfig 10000 5000 c6state
  have hcond : (srcConfig.textureSize : ℚ) * (1 / 10) <
      |(calculateContentBand srcConfig 10000).1 - c6state.bandMinX| ∨
    (srcConfig.textureSize : ℚ) * (1 / 10) <
      |(calculateContentBand srcConfig 10000).2 - c6state.bandMaxX| :=
    Or.inl (by with_unfolding_all decide)
  exact ⟨hcond, h.1, h.2.2.2.2.1 hcond⟩

/-- The Gaussian exponent is never positive. -/
lemma gauss_arg_nonpos (d sigma : ℚ) : -(d * d) / (2 * sigma * sigma) ≤ 0 := by
  apply div_nonpos_of_nonpos_of_nonneg
  · simpa using mul_self_nonneg d
  · nlinarith [mul_self_nonneg sigma]

/-- A cell whose axis distance to the card exceeds the half extent plus
the influence radius on some axis has edge distance at least the radius
(for a square-root primitive that is monotone and exact on the radius). -/
lemma edgeDist_ge_of_far (prims : Prims) (cfg : Config) (tc : TexCard)
    (hR : 0 ≤ cfg.glassInfluenceRadius)
    (hmono : ∀ a b : ℚ, a ≤ b → prims.sqrt a ≤ prims.sqrt b)
    (hsqR : prims.sqrt (cfg.glassInfluenceRadius * cfg.glassInfluenceRadius) =
      cfg.glassInfluenceRadius)
    (x y : ℕ)
    (h : tc.hw + cfg.glassInfluenceRadius < |(x:ℚ) - tc.px| ∨
         tc.hh + cfg.glassInfluenceRadius < |(y:ℚ) - tc.py|) :
    cfg.glassInfluenceRadius ≤ edgeDist prims tc x y := by
  have hex0 : (0:ℚ) ≤ max 0 (|(x:ℚ) - tc.px| - tc.hw) := le_max_left _ _
  have hey0 : (0:ℚ) ≤ max 0 (|(y:ℚ) - tc.py| - tc.hh) := le_max_left _ _
  have hRR : cfg.glassInfluenceRadius * cfg.glassInfluenceRadius ≤
      max 0 (|(x:ℚ) - tc.px| - tc.hw) * max 0 (|(x:ℚ) - tc.px| - tc.hw) +
        max 0 (|(y:ℚ) - tc.py| - tc.hh) * max 0 (|(y:ℚ) - tc.py| - tc.hh) := by
    rcases h with h | h
    · have h2 : cfg.glassInfluenceRadius < max 0 (|(x:ℚ) - tc.px| - tc.hw) :=
        lt_of_lt_of_le (by linarith) (le_max_right _ _)
      have h3 := mul_self_le_mul_self hR (le_of_lt h2)
      have h4 := mul_self_nonneg (max 0 (|(y:ℚ) - tc.py| - tc.hh))
      linarith
    · have h2 : cfg.glassInfluenceRadius < max 0 (|(y:ℚ) - tc.py| - tc.hh) :=
        lt_of_lt_of_le (by linarith) (le_max_right _ _)
      have h3 := mul_self_le_mul_self hR (le_of_lt h2)
      have h4 := mul_self_nonneg (max 0 (|(x:ℚ) - tc.px| - tc.hw))
      linarith
  have hs := hmono _ _ hRR
  rw [hsqR] at hs
  exact hs

/-- C4: Gaussian falloff.  For a single card over a zero-influence state,
with the content band covering the whole texture, the influence stored at
any cell after one tick is: the compression when the cell's edge distance
is zero, the compression scaled by the Gaussian of the edge distance with
sigma equal to the radius times the sigma multiplier when the distance is
positive but below the influence radius, and exactly zero otherwise —
independent of the direction from the card.  The hypotheses on the sqrt
and exp primitives record facts of their real counterparts (monotonicity,
exactness on the radius, positivity on nonpositive arguments). -/
theorem c4_gaussian_falloff (prims : Prims) (cfg : Config) (aspect bmin bmax : ℚ)
    (card : Card) (st : FieldState)
    (hzero : ∀ x y : ℕ, st.influence x y = 0)
    (hband1 : bmin ≤ 0) (hband2 : (cfg.textureSize : ℚ) - 1 ≤ bmax)
    (hR : 0 < cfg.glassInfluenceRadius)
    (hc0 : 0 ≤ card.compression)
    (hexp : ∀ q : ℚ, q ≤ 0 → 0 < prims.exp q)
    (hmono : ∀ a b : ℚ, a ≤ b → prims.sqrt a ≤ prims.sqrt b)
    (hsqR : prims.sqrt (cfg.glassInfluenceRadius * cfg.glassInfluenceRadius) =
      cfg.glassInfluenceRadius)
    (x y : ℕ) (hx : x < cfg.textureSize) (hy : y < cfg.textureSize) :
    (updateBuffers prims cfg aspect bmin bmax [card] st).influence x y =
      (if edgeDist prims (toTexCard cfg aspect card) x y = 0 then card.compression
       else if edgeDist prims (toTexCard cfg aspect card) x y <
           cfg.glassInfluenceRadius then
         card.compression *
           prims.exp
             (-(edgeDist prims (toTexCard cfg aspect card) x y *
                 edgeDist prims (toTexCard cfg aspect card) x y) /
               (2 * (cfg.glassInfluenceRadius * cfg.gaussianSigmaMultiplier) *
                 (cfg.glassInfluenceRadius * cfg.gaussianSigmaMultiplier)))
       else 0) := by
  show (updateBuffers prims cfg aspect bmin bmax [card] st).influence x y =
    targetInfluence prims cfg (toTexCard cfg aspect card) x y
  have hupd : (updateBuffers prims cfg aspect bmin bmax [card] st).influence x y =
      influenceAfterDecay prims cfg aspect bmin bmax [card] st.prevBounds
        (influenceAfterCards prims cfg aspect bmin bmax [card] st.influence) x y := rfl
  have hdec0 : decayCell cfg 0 = 0 := by unfold decayCell; norm_num
  by_cases hcc : card.compression ≤ 0
  · have hc00 : card.compression = 0 := le_antisymm hcc hc0
    have hni : ¬ influencedAt prims cfg aspect bmin bmax [card] x y := by
      intro ⟨c2, hmem, hpc, _, _⟩
      rw [List.mem_singleton] at hmem
      subst hmem
      exact absurd hpc (not_lt.mpr hcc)
    have hT : targetInfluence prims cfg (toTexCard cfg aspect card) x y = 0 := by
      simp only [targetInfluence]
      have h2 : (toTexCard cfg aspect card).compression = 0 := hc00
      split_ifs <;> simp [h2]
    rw [hupd]
    unfold influenceAfterDecay
    rw [influenceAfterCards_eq_of_not_influenced prims cfg aspect bmin bmax x y [card] hni,
      hzero x y, hT]
    split_ifs with h
    · exact hdec0
    · rfl
  · have hpc : 0 < card.compression := lt_of_not_le hcc
    by_cases hreg : inCardRegion cfg bmin bmax (toTexCard cfg aspect card) x y
    · have hstep : influenceAfterCards prims cfg aspect bmin bmax [card] st.influence x y =
          (if 0 < targetInfluence prims cfg (toTexCard cfg aspect card) x y then
            targetInfluence prims cfg (toTexCard cfg aspect card) x y else 0) := by
        show (if card.compression ≤ 0 then st.influence
          else cardInfluenceWrite prims cfg bmin bmax (toTexCard cfg aspect card)
            st.influence) x y = _
        rw [if_neg hcc]
        unfold cardInfluenceWrite
        by_cases ht : 0 < targetInfluence prims cfg (toTexCard cfg aspect card) x y
        · rw [if_pos ⟨hreg, ht⟩, if_pos ht, hzero x y]
          exact max_eq_right (le_of_lt ht)
        · rw [if_neg (fun hh => ht hh.2), if_neg ht]
          exact hzero x y
      by_cases hd0 : edgeDist prims (toTexCard cfg aspect card) x y = 0
      · have hT : targetInfluence prims cfg (toTexCard cfg aspect card) x y =
            card.compression := by
          simp only [targetInfluence]
          rw [if_pos hd0]
          rfl
        have htp : 0 < targetInfluence prims cfg (toTexCard cfg aspect card) x y := by
          rw [hT]; exact hpc
        have hinfl : influencedAt prims cfg aspect bmin bmax [card] x y :=
          ⟨card, List.mem_singleton.mpr rfl, hpc, hreg, htp⟩
        rw [hupd]
        unfold influenceAfterDecay
        rw [if_neg (fun hh => hh.2 hinfl), hstep, if_pos htp]
      · by_cases hdR : edgeDist prims (toTexCard cfg aspect card) x y <
            cfg.glassInfluenceRadius
        · have harg := gauss_arg_nonpos (edgeDist prims (toTexCard cfg aspect card) x y)
            (cfg.glassInfluenceRadius * cfg.gaussianSigmaMultiplier)
          have hT : targetInfluence prims cfg (toTexCard cfg aspect card) x y =
              card.compression *
                prims.exp
                  (-(edgeDist prims (toTexCard cfg aspect card) x y *
                      edgeDist prims (toTexCard cfg aspect card) x y) /
                    (2 * (cfg.glassInfluenceRadius * cfg.gaussianSigmaMultiplier) *
                      (cfg.glassInfluenceRadius * cfg.gaussianSigmaMultiplier))) := by
            simp only [targetInfluence]
            rw [if_neg hd0, if_pos hdR]
            rfl
          have htp : 0 < targetInfluence prims cfg (toTexCard cfg aspect card) x y := by
            rw [hT]
            exact mul_pos hpc (hexp _ harg)
          have hinfl : influencedAt prims cfg aspect bmin bmax [card] x y :=
            ⟨card, List.mem_singleton.mpr rfl, hpc, hreg, htp⟩

          rw [hupd]
          unfold influenceAfterDecay
          rw [if_neg (fun hh => hh.2 hinfl), hstep, if_pos htp]
        · have hT : targetInfluence prims cfg (toTexCard cfg aspect card) x y = 0 := by
            unfold targetInfluence
            rw [if_neg hd0, if_neg hdR]
          have hni : ¬ influencedAt prims cfg aspect bmin bmax [card] x y := by
            intro ⟨c2, hmem, _, _, htp⟩
            rw [List.mem_singleton] at hmem
            subst hmem
            rw [hT] at htp
            exact absurd htp (lt_irrefl 0)
          rw [hupd]
          unfold influenceAfterDecay
          rw [influenceAfterCards_eq_of_not_influenced prims cfg aspect bmin bmax x y
            [card] hni, hzero x y, hT]
          split_ifs with h
          · exact hdec0
          · rfl
    · have hni : ¬ influencedAt prims cfg aspect bmin bmax [card] x y := by
        intro ⟨c2, hmem, _, hreg2, _⟩
        rw [List.mem_singleton] at hmem
        subst hmem
        exact hreg hreg2
      have hxle : (x:ℤ) ≤ (cfg.textureSize:ℤ) - 1 := by omega
      have hyle : (y:ℤ) ≤ (cfg.textureSize:ℤ) - 1 := by omega
      have hfl : ⌊bmin⌋ ≤ (x:ℤ) := by
        have h0 : ⌊bmin⌋ ≤ ⌊(0:ℚ)⌋ := Int.floor_mono hband1
        rw [Int.floor_zero] at h0
        exact le_trans h0 (Int.natCast_nonneg x)
      have hce : (x:ℤ) ≤ ⌈bmax⌉ := by
        refine le_trans hxle ?_
        have h1 : ((cfg.textureSize:ℤ) - 1 : ℤ) = ⌈((cfg.textureSize:ℚ) - 1 : ℚ)⌉ := by
          rw [show ((cfg.textureSize:ℚ) - 1 : ℚ) = (((cfg.textureSize:ℤ) - 1 : ℤ) : ℚ) by
            push_cast; ring]
          rw [Int.ceil_intCast]
        rw [h1]
        exact Int.ceil_mono hband2
      have hout : (x:ℤ) < updMinX cfg (toTexCard cfg aspect card) ∨
          updMaxX cfg (toTexCard cfg aspect card) < (x:ℤ) ∨
          (y:ℤ) < updMinY cfg (toTexCard cfg aspect card) ∨
          updMaxY cfg (toTexCard cfg aspect card) < (y:ℤ) := by
        by_contra hcon
        push_neg at hcon
        exact hreg ⟨max_le hcon.1 hfl, le_min hcon.2.1 hce, hcon.2.2.1, hcon.2.2.2⟩
      have hfar : (toTexCard cfg aspect card).hw + cfg.glassInfluenceRadius <
            |(x:ℚ) - (toTexCard cfg aspect card).px| ∨
          (toTexCard cfg aspect card).hh + cfg.glassInfluenceRadius <
            |(y:ℚ) - (toTexCard cfg aspect card).py| := by
        rcases hout with h1 | h1 | h1 | h1
        · left
          unfold updMinX at h1
          have h2 : (x:ℤ) < ⌊(toTexCard cfg aspect card).px -
              (toTexCard cfg aspect card).hw - cfg.glassInfluenceRadius⌋ := by
            rcases lt_max_iff.mp h1 with h | h
            · exact absurd h (not_lt.mpr (Int.natCast_nonneg x))
            · exact h
          have h3 : (x:ℚ) < (toTexCard cfg aspect card).px -
              (toTexCard cfg aspect card).hw - cfg.glassInfluenceRadius := by
            calc (x:ℚ) < ((⌊(toTexCard cfg aspect card).px -
                  (toTexCard cfg aspect card).hw - cfg.glassInfluenceRadius⌋ : ℤ) : ℚ) := by
                  exact_mod_cast h2
              _ ≤ _ := Int.floor_le _
          calc (toTexCard cfg aspect card).hw + cfg.glassInfluenceRadius
              < -((x:ℚ) - (toTexCard cfg aspect card).px) := by linarith
            _ ≤ |(x:ℚ) - (toTexCard cfg aspect card).px| := neg_le_abs _
        · left
          unfold updMaxX at h1
          have h2 : ⌈(toTexCard cfg aspect card).px +
              (toTexCard cfg aspect card).hw + cfg.glassInfluenceRadius⌉ < (x:ℤ) := by
            rcases min_lt_iff.mp h1 with h | h
            · exact absurd h (not_lt.mpr hxle)
            · exact h
          have h3 : (toTexCard cfg aspect card).px +
              (toTexCard cfg aspect card).hw + cfg.glassInfluenceRadius < (x:ℚ) := by
            calc (toTexCard cfg aspect card).px +
                  (toTexCard cfg aspect card).hw + cfg.glassInfluenceRadius
                ≤ ((⌈(toTexCard cfg aspect card).px +
                    (toTexCard cfg aspect card).hw + cfg.glassInfluenceRadius⌉ : ℤ) : ℚ) :=
                  Int.le_ceil _
              _ < (x:ℚ) := by exact_mod_cast h2
          calc (toTexCard cfg aspect card).hw + cfg.glassInfluenceRadius
              < (x:ℚ) - (toTexCard cfg aspect card).px := by linarith
            _ ≤ |(x:ℚ) - (toTexCard cfg aspect card).px| := le_abs_self _
        · right
          unfold updMinY at h1
          have h2 : (y:ℤ) < ⌊(toTexCard cfg aspect card).py -
              (toTexCard cfg aspect card).hh - cfg.glassInfluenceRadius⌋ := by
            rcases lt_max_iff.mp h1 with h | h
            · exact absurd h (not_lt.mpr (Int.natCast_nonneg y))
            · exact h
          have h3 : (y:ℚ) < (toTexCard cfg aspect card).py -
              (toTexCard cfg aspect card).hh - cfg.glassInfluenceRadius := by
            calc (y:ℚ) < ((⌊(toTexCard cfg aspect card).py -
                  (toTexCard cfg aspect card).hh - cfg.glassInfluenceRadius⌋ : ℤ) : ℚ) := by
                  exact_mod_cast h2
              _ ≤ _ := Int.floor_le _
          calc (toTexCard cfg aspect card).hh + cfg.glassInfluenceRadius
              < -((y:ℚ) - (toTexCard cfg aspect card).py) := by linarith
            _ ≤ |(y:ℚ) - (toTexCard cfg aspect card).py| := neg_le_abs _
        · right
          unfold updMaxY at h1
          have h2 : ⌈(toTexCard cfg aspect card).py +
              (toTexCard cfg aspect card).hh + cfg.glassInfluenceRadius⌉ < (y:ℤ) := by
            rcases min_lt_iff.mp h1 with h | h
            · exact absurd h (not_lt.mpr hyle)
            · exact h
          have h3 : (toTexCard cfg aspect card).py +
              (toTexCard cfg aspect card).hh + cfg.glassInfluenceRadius < (y:ℚ) := by
            calc (toTexCard cfg aspect card).py +
                  (toTexCard cfg aspect card).hh + cfg.glassInfluenceRadius
                ≤ ((⌈(toTexCard cfg aspect card).py +
                    (toTexCard cfg aspect card).hh + cfg.glassInfluenceRadius⌉ : ℤ) : ℚ) :=
                  Int.le_ceil _
              _ < (y:ℚ) := by exact_mod_cast h2
          calc (toTexCard cfg aspect card).hh + cfg.glassInfluenceRadius
              < (y:ℚ) - (toTexCard cfg aspect card).py := by linarith
            _ ≤ |(y:ℚ) - (toTexCard cfg aspect card).py| := le_abs_self _
      have hdge : cfg.glassInfluenceRadius ≤
          edgeDist prims (toTexCard cfg aspect card) x y :=
        edgeDist_ge_of_far prims cfg _ (le_of_lt hR) hmono hsqR x y hfar
      have hd0 : edgeDist prims (toTexCard cfg aspect card) x y ≠ 0 := by
        intro h0
        rw [h0] at hdge
        exact absurd hdge (not_le.mpr hR)
      have hT : targetInfluence prims cfg (toTexCard cfg aspect card) x y = 0 := by
        simp only [targetInfluence]
        rw [if_neg hd0, if_neg (not_lt.mpr hdge)]
      rw [hupd]
      unfold influenceAfterDecay
      rw [influenceAfterCards_eq_of_not_influenced prims cfg aspect bmin bmax x y
        [card] hni, hzero x y, hT]
      split_ifs with h
      · exact hdec0
      · rfl

/-- Scenario A configuration: resolution 4 and influence radius 1. -/
def scenarioAConfig : Config :=
  { srcConfig with
    textureSize := 4
    glassInfluenceRadius := 1 }

/-- Math primitives for Scenario A: a monotone rational square root that
is exact at the radius 1 and a strictly positive exp. -/
def scenarioAPrims : Prims :=
  { noise2D := fun _ _ => 0
    exp := fun _ => 1/2
    sqrt := fun q => if q < 1 then 0 else 1
    cos := fun _ => 1
    sin := fun _ => 0
    atan2 := fun _ _ => 0
    powf := fun _ _ => 1 }

/-- The Scenario A card: its texture-space footprint under aspect 1 and
resolution 4 is centered on cell (2, 2) with half extents 1/2 and full
compression. -/
def scenarioACard : Card :=
  { posX := 0, posY := 0, sizeX := 5/2, sizeY := 5/2
    velMemX := 0, velMemY := 0, compression := 1 }

/-- C4 witness, Scenario A: at resolution 4 with one full-compression
card centered on cell (2, 2) and influence radius 1, the hypotheses of
the falloff theorem hold and one tick from the zero-influence initial
state stores influence 1 at cell (2, 2) and exactly 0 at cell (0, 2),
whose edge distance is at least the radius. -/
theorem c4_gaussian_falloff_witness :
    (updateBuffers scenarioAPrims scenarioAConfig 1 0 4 [scenarioACard]
        (initBuffers scenarioAPrims scenarioAConfig)).influence 2 2 = 1 ∧
    (updateBuffers scenarioAPrims scenarioAConfig 1 0 4 [scenarioACard]
        (initBuffers scenarioAPrims scenarioAConfig)).influence 0 2 = 0 := by
  have hmono : ∀ a b : ℚ, a ≤ b → scenarioAPrims.sqrt a ≤ scenarioAPrims.sqrt b := by
    intro a b hab
    show (if a < (1:ℚ) then (0:ℚ) else 1) ≤ (if b < (1:ℚ) then (0:ℚ) else 1)
    split_ifs with h1 h2 h3
    · exact le_refl 0
    · norm_num
    · exact absurd (lt_of_le_of_lt hab h3) h1
    · exact le_refl 1
  have hexp : ∀ q : ℚ, q ≤ 0 → 0 < scenarioAPrims.exp q := by
    intro q hq
    show (0:ℚ) < 1/2
    norm_num
  have h22 := c4_gaussian_falloff scenarioAPrims scenarioAConfig 1 0 4 scenarioACard
    (initBuffers scenarioAPrims scenarioAConfig) (fun _ _ => rfl)
    (le_refl 0) (by with_unfolding_all decide) (by with_unfolding_all decide)
    (by with_unfolding_all decide) hexp hmono (by with_unfolding_all decide)
    2 2 (by with_unfolding_all decide) (by with_unfolding_all decide)
  have h02 := c4_gaussian_falloff scenarioAPrims scenarioAConfig 1 0 4 scenarioACard
    (initBuffers scenarioAPrims scenarioAConfig) (fun _ _ => rfl)
    (le_refl 0) (by with_unfolding_all decide) (by with_unfolding_all decide)
    (by with_unfolding_all decide) hexp hmono (by with_unfolding_all decide)
    0 2 (by with_unfolding_all decide) (by with_unfolding_all decide)
  rw [h22, h02]
  constructor <;> with_unfolding_all decide

end Fur
